import Mathlib

/-!
# sweetssl: request routing, reload and outbound rewriting

A shallow embedding of `src/proxy.go` and of the routing core of `src/main.go`
(`loadProxies`, `hostnames`, `newSingleHostReverseProxy`, `singleJoiningSlash`).

Modelling conventions

* A Go `string` is a Lean `String`, read as its sequence of characters
  (`String.data`).  Every separator the code looks for (`/`, `;`, `@`, the path
  separator) is a single ASCII character, so slicing by characters and slicing
  by bytes agree on the inputs the theorems talk about.
* `sync.Map` is a total function from keys to optional values.
* A Go `map` that is ranged over is the list of its entries in the order the
  iteration happens to visit them; theorems quantify over every such list.
* A pointer to a freshly allocated `ProxyHandler` is the number of the
  allocation; two handlers are the identical object iff they are equal as
  values (the allocation number is part of the value).
* Library functions whose result depends on the platform or on code outside the
  repository (`runtime.GOOS`, `os.PathSeparator`, `filepath.IsAbs`,
  `url.Parse`) are fields of an environment `Env`.
-/

namespace SweetSSL

/-! ## The `strings` package, as far as the program uses it -/

/-- The Go call `strings.HasPrefix(s, p)`. -/
def hasPrefix (s p : String) : Bool := p.data.isPrefixOf s.data

/-- The Go call `strings.HasSuffix(s, p)`. -/
def hasSuffix (s p : String) : Bool := p.data.reverse.isPrefixOf s.data.reverse

/-- The Go call `strings.ContainsRune(s, c)`. -/
def containsRune (s : String) (c : Char) : Bool := decide (c ∈ s.data)

/-- The Go call `strings.Trim(s, cutset)`. -/
def trim (s cutset : String) : String :=
  let inCut : Char → Bool := fun c => decide (c ∈ cutset.data)
  ⟨((s.data.dropWhile inCut).reverse.dropWhile inCut).reverse⟩

/-- The Go slice expression `s[n:]`; `none` is the run-time panic raised when
`n` exceeds the length. -/
def sliceFrom (s : String) (n : Nat) : Option String :=
  if n ≤ s.data.length then some ⟨s.data.drop n⟩ else none

/-- Splitting a character sequence at every occurrence of `sep`. -/
def splitChars (sep : Char) : List Char → List (List Char)
  | [] => [[]]
  | c :: cs =>
    if c = sep then [] :: splitChars sep cs
    else
      match splitChars sep cs with
      | [] => [[c]]
      | p :: ps => (c :: p) :: ps

/-- The Go call `strings.Split(s, string(sep))` for a one-character separator. -/
def split (s : String) (sep : Char) : List String :=
  (splitChars sep s.data).map String.mk

/-! ## `singleJoiningSlash` (main.go 459-469) -/

/-- Joining two path pieces with exactly one slash handled at the seam. -/
def singleJoiningSlash (a b : String) : String :=
  let aslash := hasSuffix a "/"
  let bslash := hasPrefix b "/"
  if aslash && bslash then a ++ ⟨b.data.drop 1⟩
  else if !aslash && !bslash then a ++ "/" ++ b
  else a ++ b

/-- The string `a` with at most one trailing `/` removed (wording of the
specification). -/
def dropOneTrailingSlash (a : String) : String :=
  match a.data.reverse with
  | '/' :: r => ⟨r.reverse⟩
  | _ => a

/-- The string `b` with at most one leading `/` removed (wording of the
specification). -/
def dropOneLeadingSlash (b : String) : String :=
  match b.data with
  | '/' :: r => ⟨r⟩
  | _ => b

/-! ## Data model (proxy.go 10-19, main.go 31-36, 45-60) -/

/-- The settings of one mapping entry. -/
structure Host where
  Target : String
  SetCookiePath : Bool
deriving DecidableEq

/-- The fields of `url.URL` that the program reads or writes. -/
structure URL where
  Scheme : String
  Host : String
  Path : String
  RawQuery : String
deriving DecidableEq

/-- The fields of `runArgs` that the routing core reads. -/
structure runArgs where
  HSTS : Bool
  HostName : String
  Debug : Bool
deriving DecidableEq

/-- What depends on the platform or on library code: `runtime.GOOS`,
`os.PathSeparator`, `filepath.IsAbs` and `url.Parse` (`none` is a parse
error). -/
structure Env where
  GOOS : String
  PathSeparator : Char
  IsAbs : String → Bool
  urlParse : String → Option URL

/-- The three kinds of `http.Handler` that `loadProxies` builds:
`http.FileServer(http.Dir(root))`, the result of
`newSingleHostReverseProxy(target, pfx, setCookiePath)`, and the generic
`httputil.ReverseProxy` whose transport dials `addr` on `network`. -/
inductive Handler where
  | fileServer (root : String)
  | singleHost (target : URL) (pfx : String) (setCookiePath : Bool)
  | dial (network : String) (addr : String)
deriving DecidableEq

/-- The record stored in the route table; `ptr` is the identity of the
allocated object. -/
structure ProxyHandler where
  HostName : String
  TargetName : String
  Handler : Handler
  ptr : Nat
deriving DecidableEq

/-- The route table. -/
structure Proxy where
  hostMap : String → Option ProxyHandler

/-- The package-level variables that `loadProxies` touches, the number of
`ProxyHandler` objects allocated so far, and the lines written to the log. -/
structure State where
  proxy : Proxy
  proxyCounter : Nat
  allocated : Nat
  log : List String

/-- An inbound request. -/
structure Request where
  Host : String
  RequestURI : String
  URL : URL
  Header : String → Option (List String)

/-! ## The route table (proxy.go 21-33) -/

/-- The method `Proxy.Handle`: `hostMap.Store(host, handler)`. -/
def Proxy.Handle (proxy : Proxy) (host : String) (handler : ProxyHandler) : Proxy :=
  { hostMap := fun k => if k = host then some handler else proxy.hostMap k }

/-- The method `Proxy.Exists`. -/
def Proxy.Exists (proxy : Proxy) (host target : String) : Bool :=
  match proxy.hostMap host with
  | none => false
  | some item => decide (item.TargetName = target)

/-! ## Request dispatch (proxy.go 36-69) -/

/-- What `ServeHTTP` does with the request: it calls the `ServeHTTP` of a
stored handler, or answers `http.Error(w, "Not found", 404)`. -/
inductive Served where
  | serve (handler : ProxyHandler)
  | notFound
deriving DecidableEq

/-- The visible result of `Proxy.ServeHTTP`: the value of the
`Strict-Transport-Security` header it set, if any, and the dispatch. -/
structure Outcome where
  sts : Option String
  served : Served
deriving DecidableEq

/-- The method `Proxy.ServeHTTP`. -/
def Proxy.ServeHTTP (args : runArgs) (proxy : Proxy) (r : Request) : Outcome :=
  let sts :=
    if args.HSTS then some "max-age=31536000; includeSubDomains; preload" else none
  match proxy.hostMap r.Host with
  | some handler => ⟨sts, Served.serve handler⟩
  | none =>
    let url := split r.RequestURI '/'
    let byPath := if url.length > 1 then proxy.hostMap ("/" ++ url.getD 1 "") else none
    match byPath with
    | some handler => ⟨sts, Served.serve handler⟩
    | none =>
      match proxy.hostMap "any" with
      | some handler => ⟨sts, Served.serve handler⟩
      | none => ⟨sts, Served.notFound⟩

/-- The first path segment of a request URI in the wording of the
specification: the text after the first `/` up to the second `/`. -/
def firstSegment (uri : String) : String :=
  ⟨((uri.data.dropWhile (fun c => c != '/')).drop 1).takeWhile (fun c => c != '/')⟩

/-- The ordered key list of the specification's lookup chain. -/
def routeKeys (host uri : String) : List String :=
  [host, "/" ++ firstSegment uri, "any"]

/-- Dispatch to the handler under the first present key of `keys`, the
not-found answer when none is present. -/
def firstPresent (proxy : Proxy) (keys : List String) : Served :=
  match keys.findSome? proxy.hostMap with
  | some handler => Served.serve handler
  | none => Served.notFound

/-! ## Outbound transport (proxy.go 76-105) -/

/-- The body of the inner loop of `RoundTrip` for one `Set-Cookie` value. -/
def rewriteSetCookie (value : String) : String :=
  let parts := split value ';'
  let newSetCookie := parts.getD 0 "" ++ "; Path=/"
  if parts.length > 2 then newSetCookie ++ ";" ++ parts.getD 2 "" else newSetCookie

/-- The rewritten value in the wording of the specification: the first part,
then `; Path=/`, then every third-and-later part behind a `;`. -/
def rewriteSetCookieSpec (value : String) : String :=
  let parts := split value ';'
  (parts.drop 2).foldl (fun acc p => acc ++ ";" ++ p) (parts.getD 0 "" ++ "; Path=/")

/-- A backend response: status code and the values under its `Set-Cookie`
key. -/
structure Response where
  StatusCode : Nat
  SetCookie : List String
deriving DecidableEq

/-- The result of `proxyTransport.RoundTrip`: the response or the error, and
whether `CloseIdleConnections` was called. -/
structure RoundTripResult where
  response : Except String Response
  closedIdle : Bool

/-- The method `proxyTransport.RoundTrip`, given what the shared transport
returned. -/
def RoundTrip (SetCookiePath : Bool) (upstream : Except String Response) : RoundTripResult :=
  match upstream with
  | Except.error err => ⟨Except.error err, true⟩
  | Except.ok response =>
    let closed := decide (response.StatusCode ≥ 500)
    if SetCookiePath then
      ⟨Except.ok { response with SetCookie := response.SetCookie.map rewriteSetCookie }, closed⟩
    else ⟨Except.ok response, closed⟩

/-! ## Handler construction (main.go 430-457) -/

/-- The director closure built by `newSingleHostReverseProxy(target, pfx, _)`;
`none` is the slice-bounds panic of `req.URL.Path[len(pfx):]`.  The debug print
is not modelled. -/
def director (target : URL) (pfx : String) (req : Request) : Option Request :=
  match sliceFrom req.URL.Path pfx.data.length with
  | none => none
  | some rest =>
    let targetQuery := target.RawQuery
    let rawQuery :=
      if targetQuery = "" ∨ req.URL.RawQuery = "" then targetQuery ++ req.URL.RawQuery
      else targetQuery ++ "&" ++ req.URL.RawQuery
    let header1 : String → Option (List String) :=
      if (req.Header "User-Agent").isNone then
        fun k => if k = "User-Agent" then some [""] else req.Header k
      else req.Header
    let header2 : String → Option (List String) :=
      fun k => if k = "X-Forwarded-Proto" then some ["https"] else header1 k
    some { req with
      URL := { Scheme := target.Scheme, Host := target.Host,
               Path := singleJoiningSlash target.Path rest, RawQuery := rawQuery },
      Header := header2 }

/-- The function `newSingleHostReverseProxy`: the reverse proxy whose director
is `director target pfx` and whose transport is a `proxyTransport` with the
given `SetCookiePath`. -/
def newSingleHostReverseProxy (target : URL) (pfx : String) (setCookiePath : Bool) : Handler :=
  Handler.singleHost target pfx setCookiePath

/-- The director closure of the generic reverse proxy of `loadProxies`
(main.go 366-370). -/
def dialDirector (req : Request) : Option Request :=
  some { req with
    URL := { req.URL with Scheme := "http", Host := req.Host },
    Header := fun k => if k = "X-Forwarded-Proto" then some ["https"] else req.Header k }

/-- The `Director` field of a stored handler; a file server is no reverse
proxy and has none. -/
def Handler.Director (h : Handler) : Option (Request → Option Request) :=
  match h with
  | Handler.fileServer _ => none
  | Handler.singleHost target pfx _ => some (director target pfx)
  | Handler.dial _ _ => some dialDirector

/-! ## Reload (main.go 310-388) -/

/-- Allocating a `ProxyHandler` and storing it: `proxy.Handle(hostname,
&ProxyHandler{...})` followed by `proxyCounter++`. -/
def State.install (st : State) (hostname targetName : String) (h : Handler) : State :=
  { proxy := st.proxy.Handle hostname
      { HostName := hostname, TargetName := targetName, Handler := h, ptr := st.allocated },
    proxyCounter := st.proxyCounter + 1,
    allocated := st.allocated + 1,
    log := st.log }

/-- One iteration of the loop of `loadProxies`. -/
def loadEntry (env : Env) (st : State) (hostname : String) (host : Host) : State :=
  if st.proxy.Exists hostname host.Target then
    { st with proxyCounter := st.proxyCounter + 1 }
  else if containsRune hostname env.PathSeparator then
    { st with log := st.log ++ ["Invalid hostname: " ++ hostname] }
  else if host.Target ≠ "" ∧ host.Target.data.head? = some '@' ∧ env.GOOS = "linux" then
    let target := host.Target ++ "\x00"
    st.install hostname target (Handler.dial "unix" target)
  else if env.IsAbs host.Target then
    if hasSuffix (trim host.Target "") (String.singleton env.PathSeparator) then
      st.install hostname host.Target (Handler.fileServer host.Target)
    else
      st.install hostname host.Target (Handler.dial "unix" host.Target)
  else
    match env.urlParse host.Target with
    | some u =>
      if u.Scheme = "http" ∨ u.Scheme = "https" then
        let pfx := if hasPrefix hostname "/" then hostname else ""
        st.install hostname host.Target (newSingleHostReverseProxy u pfx host.SetCookiePath)
      else
        st.install hostname host.Target (Handler.dial "tcp" host.Target)
    | none => st.install hostname host.Target (Handler.dial "tcp" host.Target)

/-- The function `loadProxies`: the returned error (`none` is `nil`) and the
state it leaves.  The mapping is the list of entries in iteration order. -/
def loadProxies (env : Env) (mapping : List (String × Host)) (st : State) :
    Option String × State :=
  if mapping.length = 0 then (some "empty mapping", st)
  else
    let st1 := mapping.foldl (fun s kv => loadEntry env s kv.1 kv.2)
      { st with proxyCounter := 0 }
    (none, { st1 with
      log := st1.log ++ [toString st1.proxyCounter ++ " mappings have been loaded"] })

/-! ## Served hostnames (main.go 416-428) -/

/-- The function `hostnames`. -/
def hostnames (args : runArgs) (m : List (String × Host)) : List String :=
  let out : List String := if args.HostName ≠ "" then [args.HostName] else []
  m.foldl (fun out kv =>
    if kv.1 ≠ "any" ∨ hasPrefix kv.1 "/" then out ++ [kv.1] else out) out

/-! ## Concrete platforms -/

/-- A reading of `url.Parse` on targets of the shape
`scheme://authority[/path][?query]`; everything else is a parse error. -/
def parseSimpleURL (s : String) : Option URL :=
  let scheme := s.data.takeWhile (fun c => c != ':')
  let rest := s.data.dropWhile (fun c => c != ':')
  if scheme ≠ [] ∧ scheme.all Char.isAlpha ∧ rest.take 3 = [':', '/', '/'] then
    let after := rest.drop 3
    let isHostChar : Char → Bool := fun c => c != '/' && c != '?'
    let rest2 := after.dropWhile isHostChar
    some { Scheme := ⟨scheme.map Char.toLower⟩,
           Host := ⟨after.takeWhile isHostChar⟩,
           Path := ⟨rest2.takeWhile (fun c => c != '?')⟩,
           RawQuery := ⟨(rest2.dropWhile (fun c => c != '?')).drop 1⟩ }
  else none

/-- Linux: separator `/`, a path is absolute iff it starts with `/`. -/
def linuxEnv : Env :=
  { GOOS := "linux", PathSeparator := '/', IsAbs := fun p => hasPrefix p "/",
    urlParse := parseSimpleURL }

/-- Windows: separator `\`, a path is absolute when it starts with a drive
letter, a colon and a slash, or with two slashes. -/
def windowsEnv : Env :=
  { GOOS := "windows", PathSeparator := '\\',
    IsAbs := fun p =>
      match p.data with
      | c1 :: c2 :: rest =>
        let isSlash : Char → Bool := fun c => c == '\\' || c == '/'
        (isSlash c1 && isSlash c2) ||
          (c1.isAlpha && c2 == ':' && (rest.head?.map isSlash).getD false)
      | _ => false,
    urlParse := parseSimpleURL }

/-- The route table with no entry. -/
def emptyProxy : Proxy := { hostMap := fun _ => none }

/-- The state of a freshly started process. -/
def initState : State := { proxy := emptyProxy, proxyCounter := 0, allocated := 0, log := [] }

/-- A request with the given host, request URI and decoded path. -/
def mkRequest (host uri path : String) : Request :=
  { Host := host, RequestURI := uri,
    URL := { Scheme := "", Host := "", Path := path, RawQuery := "" },
    Header := fun _ => none }

/-! ## Sample mappings -/

/-- A mapping with one key that contains the Linux path separator. -/
def sampleInvalid : List (String × Host) :=
  [("bad/host", ⟨"http://127.0.0.1:9000", false⟩), ("good.com", ⟨"http://127.0.0.1:9001", false⟩)]

/-- A first mapping with two hosts. -/
def sampleFirst : List (String × Host) :=
  [("example.com", ⟨"http://127.0.0.1:9000", false⟩), ("old.test", ⟨"127.0.0.1:7000", false⟩)]

/-- A later mapping that changes the target of `example.com` and no longer
mentions `old.test`. -/
def sampleChanged : List (String × Host) :=
  [("example.com", ⟨"http://127.0.0.1:9009", false⟩)]

/-- A mapping with a path-prefix key and a host key. -/
def samplePath : List (String × Host) :=
  [("/app", ⟨"http://127.0.0.1:9000/base", false⟩), ("example.com", ⟨"http://127.0.0.1:9001", false⟩)]

/-- A mapping whose only key is the path-prefix key `/`. -/
def sampleRoot : List (String × Host) :=
  [("/", ⟨"http://127.0.0.1:9000", false⟩)]

/-- A mapping whose only target is an abstract socket address. -/
def sampleAbstract : List (String × Host) :=
  [("a.com", ⟨"@sock", false⟩)]

/-- A mapping with a path-prefix key, the wildcard and a hostname. -/
def sampleHostnames : List (String × Host) :=
  [("/app", ⟨"http://127.0.0.1:9000", false⟩), ("any", ⟨"/var/www/", false⟩),
   ("example.com", ⟨"http://127.0.0.1:9001", false⟩)]

/-! ## Lemmas on strings -/

theorem hasSuffix_slash (a : String) :
    hasSuffix a "/" = true ↔ ∃ r, a.data.reverse = '/' :: r := by
  unfold hasSuffix
  have h1 : ("/" : String).data.reverse = ['/'] := rfl
  rw [h1]
  cases h : a.data.reverse with
  | nil => simp [List.isPrefixOf]
  | cons c r =>
    simp [List.isPrefixOf]
    exact eq_comm

theorem hasPrefix_slash (b : String) :
    hasPrefix b "/" = true ↔ ∃ r, b.data = '/' :: r := by
  unfold hasPrefix
  have h1 : ("/" : String).data = ['/'] := rfl
  rw [h1]
  cases h : b.data with
  | nil => simp [List.isPrefixOf]
  | cons c r =>
    simp [List.isPrefixOf]
    exact eq_comm

theorem dropOneTrailingSlash_of_slash (a : String) (r : List Char)
    (h : a.data.reverse = '/' :: r) : dropOneTrailingSlash a = ⟨r.reverse⟩ := by
  simp [dropOneTrailingSlash, h]

theorem dropOneTrailingSlash_of_not (a : String) (h : ¬ ∃ r, a.data.reverse = '/' :: r) :
    dropOneTrailingSlash a = a := by
  unfold dropOneTrailingSlash
  split
  · rename_i r hr
    exact absurd ⟨r, hr⟩ h
  · rfl

theorem dropOneLeadingSlash_of_slash (b : String) (r : List Char)
    (h : b.data = '/' :: r) : dropOneLeadingSlash b = ⟨r⟩ := by
  simp [dropOneLeadingSlash, h]

theorem dropOneLeadingSlash_of_not (b : String) (h : ¬ ∃ r, b.data = '/' :: r) :
    dropOneLeadingSlash b = b := by
  unfold dropOneLeadingSlash
  split
  · rename_i r hr
    exact absurd ⟨r, hr⟩ h
  · rfl

theorem singleJoiningSlash_eq (a b : String) :
    singleJoiningSlash a b = dropOneTrailingSlash a ++ "/" ++ dropOneLeadingSlash b := by
  have hs : ("/" : String).data = ['/'] := rfl
  unfold singleJoiningSlash
  by_cases ha : ∃ r, a.data.reverse = '/' :: r
  · have ha1 := (hasSuffix_slash a).2 ha
    obtain ⟨ra, hra⟩ := ha
    have hadata : a.data = ra.reverse ++ ['/'] := by
      have := congrArg List.reverse hra
      simpa using this
    rw [dropOneTrailingSlash_of_slash a ra hra]
    by_cases hb : ∃ r, b.data = '/' :: r
    · have hb1 := (hasPrefix_slash b).2 hb
      obtain ⟨rb, hrb⟩ := hb
      rw [dropOneLeadingSlash_of_slash b rb hrb]
      apply String.ext
      simp [ha1, hb1, String.data_append, hadata, hrb, hs]
    · have hb1 : hasPrefix b "/" = false := by
        cases h : hasPrefix b "/"
        · rfl
        · exact absurd ((hasPrefix_slash b).1 h) hb
      rw [dropOneLeadingSlash_of_not b hb]
      apply String.ext
      simp [ha1, hb1, String.data_append, hadata, hs]
  · have ha1 : hasSuffix a "/" = false := by
      cases h : hasSuffix a "/"
      · rfl
      · exact absurd ((hasSuffix_slash a).1 h) ha
    rw [dropOneTrailingSlash_of_not a ha]
    by_cases hb : ∃ r, b.data = '/' :: r
    · have hb1 := (hasPrefix_slash b).2 hb
      obtain ⟨rb, hrb⟩ := hb
      rw [dropOneLeadingSlash_of_slash b rb hrb]
      apply String.ext
      simp [ha1, hb1, String.data_append, hrb, hs]
    · have hb1 : hasPrefix b "/" = false := by
        cases h : hasPrefix b "/"
        · rfl
        · exact absurd ((hasPrefix_slash b).1 h) hb
      rw [dropOneLeadingSlash_of_not b hb]
      simp [ha1, hb1]

/-- C7: for all strings `a` and `b`, `singleJoiningSlash a b` is `a` without
one trailing slash, then a slash, then `b` without one leading slash; the four
slash combinations of `a`, `a/` with `b`, `/b` all give `a/b`. -/
theorem singleJoiningSlash_single_slash :
    (∀ a b : String,
      singleJoiningSlash a b = dropOneTrailingSlash a ++ "/" ++ dropOneLeadingSlash b) ∧
    singleJoiningSlash "a/" "/b" = "a/b" ∧
    singleJoiningSlash "a" "b" = "a/b" ∧
    singleJoiningSlash "a/" "b" = "a/b" ∧
    singleJoiningSlash "a" "/b" = "a/b" :=
  ⟨singleJoiningSlash_eq, by decide, by decide, by decide, by decide⟩

/-! ## Lemmas on splitting -/

theorem splitChars_nil (sep : Char) : splitChars sep [] = [[]] := rfl

theorem splitChars_cons (sep c : Char) (cs : List Char) :
    splitChars sep (c :: cs) =
      if c = sep then [] :: splitChars sep cs
      else
        match splitChars sep cs with
        | [] => [[c]]
        | p :: ps => (c :: p) :: ps := rfl

theorem splitChars_ne_nil (sep : Char) (l : List Char) : splitChars sep l ≠ [] := by
  cases l with
  | nil => simp [splitChars_nil]
  | cons c cs =>
    rw [splitChars_cons]
    split
    · simp
    · split <;> simp

theorem splitChars_eq (sep : Char) (l : List Char) :
    splitChars sep l =
      l.takeWhile (fun c => c != sep) ::
        (if sep ∈ l then splitChars sep ((l.dropWhile (fun c => c != sep)).drop 1) else []) := by
  induction l with
  | nil => simp [splitChars_nil]
  | cons c cs ih =>
    rw [splitChars_cons]
    by_cases hc : c = sep
    · subst hc
      simp
    · have hc2 : ¬ sep = c := fun h => hc h.symm
      rw [if_neg hc, ih]
      simp [List.takeWhile_cons, List.dropWhile_cons, hc, hc2]

theorem split_length_gt_one (s : String) (sep : Char) :
    (split s sep).length > 1 ↔ sep ∈ s.data := by
  unfold split
  rw [splitChars_eq]
  by_cases h : sep ∈ s.data
  · have := splitChars_ne_nil sep ((s.data.dropWhile (fun c => c != sep)).drop 1)
    rw [if_pos h]
    simp only [List.length_map, List.length_cons, gt_iff_lt, lt_add_iff_pos_left, h, iff_true]
    exact List.length_pos.2 this
  · simp [h]

theorem split_slash_second (uri : String) (h : '/' ∈ uri.data) :
    (split uri '/').getD 1 "" = firstSegment uri := by
  unfold split firstSegment
  rw [splitChars_eq, if_pos h, splitChars_eq]
  simp

/-! ## Request dispatch -/

theorem ServeHTTP_served_of_slash (args : runArgs) (proxy : Proxy) (r : Request)
    (h : '/' ∈ r.RequestURI.data) :
    (proxy.ServeHTTP args r).served = firstPresent proxy (routeKeys r.Host r.RequestURI) := by
  have hlen : (split r.RequestURI '/').length > 1 := (split_length_gt_one _ _).2 h
  have hseg := split_slash_second r.RequestURI h
  unfold Proxy.ServeHTTP firstPresent routeKeys
  simp only [hlen, if_true, hseg, List.findSome?]
  cases h1 : proxy.hostMap r.Host with
  | some a => rfl
  | none =>
    cases h2 : proxy.hostMap ("/" ++ firstSegment r.RequestURI) with
    | some b => rfl
    | none =>
      cases h3 : proxy.hostMap "any" <;> rfl

theorem ServeHTTP_served_no_slash (args : runArgs) (proxy : Proxy) (r : Request)
    (h : '/' ∉ r.RequestURI.data) :
    (proxy.ServeHTTP args r).served = firstPresent proxy [r.Host, "any"] := by
  have hlen : ¬ (split r.RequestURI '/').length > 1 := fun hl => h ((split_length_gt_one _ _).1 hl)
  unfold Proxy.ServeHTTP firstPresent
  simp only [hlen, if_false, List.findSome?]
  cases h1 : proxy.hostMap r.Host with
  | some a => rfl
  | none =>
    cases h3 : proxy.hostMap "any" <;> rfl

theorem firstPresent_notFound_iff (proxy : Proxy) (keys : List String) :
    firstPresent proxy keys = Served.notFound ↔ ∀ k ∈ keys, proxy.hostMap k = none := by
  unfold firstPresent
  cases h : keys.findSome? proxy.hostMap with
  | none =>
    simp only [true_iff]
    exact List.findSome?_eq_none_iff.1 h
  | some a =>
    simp only [false_iff, reduceCtorEq]
    intro hall
    rw [List.findSome?_eq_none_iff.2 hall] at h
    cases h

/-- C1 (amended): for every route table and every request whose RequestURI
contains a `/`, `ServeHTTP` dispatches to the handler stored under the first
present key of the ordered list Host, `/` followed by the first path segment,
`any`; and it answers 404 without calling a handler if and only if none of the
three keys is present. -/
theorem ServeHTTP_lookup_chain (args : runArgs) (proxy : Proxy) (r : Request)
    (h : '/' ∈ r.RequestURI.data) :
    (proxy.ServeHTTP args r).served = firstPresent proxy (routeKeys r.Host r.RequestURI) ∧
    ((proxy.ServeHTTP args r).served = Served.notFound ↔
      ∀ k ∈ routeKeys r.Host r.RequestURI, proxy.hostMap k = none) := by
  rw [ServeHTTP_served_of_slash args proxy r h]
  exact ⟨rfl, firstPresent_notFound_iff proxy _⟩

/-- Witness for C1: the table holds `/app` and `any`, the request for
`other.test` with URI `/app/x` goes to the `/app` handler. -/
theorem ServeHTTP_lookup_chain_witness :
    '/' ∈ ("/app/x" : String).data ∧
    (((emptyProxy.Handle "any" ⟨"any", "t1", Handler.dial "tcp" "t1", 0⟩).Handle "/app"
        ⟨"/app", "t2", Handler.dial "tcp" "t2", 1⟩).ServeHTTP ⟨false, "", false⟩
        (mkRequest "other.test" "/app/x" "/app/x")).served =
      Served.serve ⟨"/app", "t2", Handler.dial "tcp" "t2", 1⟩ :=
  ⟨by decide,
   (ServeHTTP_lookup_chain ⟨false, "", false⟩
      ((emptyProxy.Handle "any" ⟨"any", "t1", Handler.dial "tcp" "t1", 0⟩).Handle "/app"
        ⟨"/app", "t2", Handler.dial "tcp" "t2", 1⟩)
      (mkRequest "other.test" "/app/x" "/app/x") (by decide)).1.trans (by decide)⟩

/-- Counterexample for C1: on Windows the mapping with the single key `/`
is loaded; for a request with Host `x` and the request URI `example.com:443`,
which has no `/`, the three keys of the specification are `x`, `/` and `any`,
the second is present, and yet `ServeHTTP` answers 404: the path tier is
skipped when the URI has no `/`. -/
theorem ServeHTTP_chain_skips_path_tier :
    routeKeys "x" "example.com:443" = ["x", "/", "any"] ∧
    ((loadProxies windowsEnv sampleRoot initState).2.proxy.hostMap "/").isSome = true ∧
    (firstPresent (loadProxies windowsEnv sampleRoot initState).2.proxy
        (routeKeys "x" "example.com:443") ≠ Served.notFound) ∧
    ((loadProxies windowsEnv sampleRoot initState).2.proxy.ServeHTTP
        ⟨false, "", false⟩ (mkRequest "x" "example.com:443" "")).served = Served.notFound ∧
    ¬ (((loadProxies windowsEnv sampleRoot initState).2.proxy.ServeHTTP
        ⟨false, "", false⟩ (mkRequest "x" "example.com:443" "")).served = Served.notFound ↔
      ∀ k ∈ routeKeys "x" "example.com:443",
        (loadProxies windowsEnv sampleRoot initState).2.proxy.hostMap k = none) := by
  refine ⟨by decide, by decide, by decide, by decide, ?_⟩
  intro hiff
  have hall := hiff.1 (by decide)
  have := hall "/" (by decide)
  revert this
  decide

/-- C2 (amended): host matching is exact; for every hostname with an entry in
the route table, a request whose Host is that very string is dispatched to the
entry's handler by the exact-match tier, whatever the request URI and the
other entries are. -/
theorem ServeHTTP_exact_host (args : runArgs) (proxy : Proxy) (r : Request)
    (handler : ProxyHandler) (h : proxy.hostMap r.Host = some handler) :
    (proxy.ServeHTTP args r).served = Served.serve handler := by
  unfold Proxy.ServeHTTP
  simp only [h]

/-- Witness for C2: the entry `example.com` serves the host `example.com`. -/
theorem ServeHTTP_exact_host_witness :
    ((emptyProxy.Handle "example.com"
        ⟨"example.com", "t", Handler.dial "tcp" "t", 0⟩).ServeHTTP ⟨false, "", false⟩
        (mkRequest "example.com" "/" "/")).served =
      Served.serve ⟨"example.com", "t", Handler.dial "tcp" "t", 0⟩ :=
  ServeHTTP_exact_host ⟨false, "", false⟩
    (emptyProxy.Handle "example.com" ⟨"example.com", "t", Handler.dial "tcp" "t", 0⟩)
    (mkRequest "example.com" "/" "/") ⟨"example.com", "t", Handler.dial "tcp" "t", 0⟩
    (by decide)

/-- Counterexample for C2: the table that `loadProxies` builds from the single
entry `example.com` answers 404 to a request whose Host is `EXAMPLE.com`,
although the two names differ only in letter case. -/
theorem ServeHTTP_host_case_sensitive :
    ("EXAMPLE.com" : String).data.map Char.toLower = ("example.com" : String).data ∧
    ((loadProxies linuxEnv [("example.com", ⟨"http://127.0.0.1:9000", false⟩)]
        initState).2.proxy.hostMap "example.com").isSome = true ∧
    ((loadProxies linuxEnv [("example.com", ⟨"http://127.0.0.1:9000", false⟩)]
        initState).2.proxy.ServeHTTP ⟨false, "", false⟩
        (mkRequest "EXAMPLE.com" "/" "/")).served = Served.notFound := by
  refine ⟨by decide, by decide, by decide⟩

/-! ## Reload -/

/-- The loop of `loadProxies` on its own. -/
theorem loadProxies_of_ne_nil (env : Env) (m : List (String × Host)) (st : State)
    (h : m ≠ []) :
    (loadProxies env m st).1 = none ∧
    (loadProxies env m st).2.proxy =
      (m.foldl (fun s kv => loadEntry env s kv.1 kv.2) { st with proxyCounter := 0 }).proxy ∧
    (loadProxies env m st).2.allocated =
      (m.foldl (fun s kv => loadEntry env s kv.1 kv.2) { st with proxyCounter := 0 }).allocated := by
  have hl : ¬ m.length = 0 := by
    intro h0
    exact h (List.length_eq_zero.1 h0)
  unfold loadProxies
  simp [hl]

theorem install_hostMap_self (st : State) (hostname targetName : String) (h : Handler) :
    (st.install hostname targetName h).proxy.hostMap hostname =
      some ⟨hostname, targetName, h, st.allocated⟩ := by
  simp [State.install, Proxy.Handle]

theorem install_hostMap_of_ne (st : State) (hostname targetName : String) (h : Handler)
    (k : String) (hk : k ≠ hostname) :
    (st.install hostname targetName h).proxy.hostMap k = st.proxy.hostMap k := by
  simp [State.install, Proxy.Handle, hk]

/-- An entry whose target the table already holds is skipped. -/
theorem loadEntry_of_exists (env : Env) (st : State) (hostname : String) (host : Host)
    (h : st.proxy.Exists hostname host.Target = true) :
    loadEntry env st hostname host = { st with proxyCounter := st.proxyCounter + 1 } := by
  unfold loadEntry
  simp [h]

/-- One iteration touches no key but its own. -/
theorem loadEntry_hostMap_of_ne (env : Env) (st : State) (hostname : String) (host : Host)
    (k : String) (hk : k ≠ hostname) :
    (loadEntry env st hostname host).proxy.hostMap k = st.proxy.hostMap k := by
  unfold loadEntry
  split_ifs
  all_goals first
    | rfl
    | exact install_hostMap_of_ne _ _ _ _ _ hk
    | (split <;> [skip; skip]
       all_goals first
         | exact install_hostMap_of_ne _ _ _ _ _ hk
         | (split_ifs <;> exact install_hostMap_of_ne _ _ _ _ _ hk))

/-- One iteration never removes the entry of its own key. -/
theorem loadEntry_isSome_mono (env : Env) (st : State) (hostname : String) (host : Host)
    (k : String) (h : (st.proxy.hostMap k).isSome = true) :
    ((loadEntry env st hostname host).proxy.hostMap k).isSome = true := by
  by_cases hk : k = hostname
  · subst hk
    unfold loadEntry
    split_ifs
    all_goals first
      | exact h
      | (rw [install_hostMap_self]; rfl)
      | (split <;> [skip; skip]
         all_goals first
           | (rw [install_hostMap_self]; rfl)
           | (split_ifs <;> (rw [install_hostMap_self]; rfl)))
  · rw [loadEntry_hostMap_of_ne env st hostname host k hk]
    exact h

/-- A key with a path separator that is absent stays absent. -/
theorem loadEntry_invalid (env : Env) (st : State) (hostname : String) (host : Host)
    (hsep : containsRune hostname env.PathSeparator = true)
    (hno : st.proxy.hostMap hostname = none) :
    (loadEntry env st hostname host).proxy.hostMap hostname = none := by
  have hex : st.proxy.Exists hostname host.Target = false := by
    simp [Proxy.Exists, hno]
  unfold loadEntry
  simp [hex, hsep, hno]

/-- A key without a path separator has an entry after its iteration, and the
entry carries the target of the mapping, or that target followed by a NUL. -/
theorem loadEntry_valid (env : Env) (st : State) (hostname : String) (host : Host)
    (hsep : containsRune hostname env.PathSeparator = false) :
    ∃ ph, (loadEntry env st hostname host).proxy.hostMap hostname = some ph ∧
      (ph.TargetName = host.Target ∨ ph.TargetName = host.Target ++ "\x00") := by
  unfold loadEntry
  by_cases hex : st.proxy.Exists hostname host.Target = true
  · simp only [hex, if_true]
    unfold Proxy.Exists at hex
    cases hm : st.proxy.hostMap hostname with
    | none => simp [hm] at hex
    | some item =>
      simp only [hm, decide_eq_true_eq] at hex
      exact ⟨item, rfl, Or.inl hex⟩
  · simp only [hex, hsep, Bool.false_eq_true, if_false]
    split_ifs
    all_goals first
      | exact ⟨_, install_hostMap_self _ _ _ _, Or.inl rfl⟩
      | exact ⟨_, install_hostMap_self _ _ _ _, Or.inr rfl⟩
      | (split <;> [skip; skip]
         all_goals first
           | exact ⟨_, install_hostMap_self _ _ _ _, Or.inl rfl⟩
           | (split_ifs <;> exact ⟨_, install_hostMap_self _ _ _ _, Or.inl rfl⟩))

theorem foldl_loadEntry_snoc (env : Env) (l : List (String × Host)) (x : String × Host)
    (st : State) :
    (l ++ [x]).foldl (fun s kv => loadEntry env s kv.1 kv.2) st =
      loadEntry env (l.foldl (fun s kv => loadEntry env s kv.1 kv.2) st) x.1 x.2 := by
  simp [List.foldl_append]

/-- The loop leaves every key alone whose entries in the mapping, if any, all
carry the target that the table already holds for the key. -/
theorem foldl_loadEntry_frame (env : Env) (m : List (String × Host)) (st : State) (k : String)
    (h : ∀ host, (k, host) ∈ m → st.proxy.Exists k host.Target = true) :
    (m.foldl (fun s kv => loadEntry env s kv.1 kv.2) st).proxy.hostMap k =
      st.proxy.hostMap k := by
  induction m using List.reverseRecOn with
  | nil => rfl
  | append_singleton l x ih =>
    rw [foldl_loadEntry_snoc]
    have ih1 := ih (fun host hm => h host (List.mem_append_left _ hm))
    by_cases hk : k = x.1
    · have hx : st.proxy.Exists k x.2.Target = true :=
        h x.2 (by rw [hk]; exact List.mem_append_right _ (List.mem_singleton_self _))
      have hx2 : (l.foldl (fun s kv => loadEntry env s kv.1 kv.2) st).proxy.Exists x.1 x.2.Target
          = true := by
        unfold Proxy.Exists at hx ⊢
        rw [← hk, ih1]
        exact hx
      rw [loadEntry_of_exists env _ x.1 x.2 hx2]
      exact ih1
    · rw [loadEntry_hostMap_of_ne env _ x.1 x.2 k hk]
      exact ih1

theorem foldl_loadEntry_of_not_mem (env : Env) (m : List (String × Host)) (st : State)
    (k : String) (h : k ∉ m.map Prod.fst) :
    (m.foldl (fun s kv => loadEntry env s kv.1 kv.2) st).proxy.hostMap k =
      st.proxy.hostMap k := by
  apply foldl_loadEntry_frame
  intro host hm
  exact absurd (List.mem_map_of_mem Prod.fst hm) h

theorem foldl_loadEntry_isSome_mono (env : Env) (m : List (String × Host)) (st : State)
    (k : String) (h : (st.proxy.hostMap k).isSome = true) :
    ((m.foldl (fun s kv => loadEntry env s kv.1 kv.2) st).proxy.hostMap k).isSome = true := by
  induction m using List.reverseRecOn with
  | nil => exact h
  | append_singleton l x ih =>
    rw [foldl_loadEntry_snoc]
    exact loadEntry_isSome_mono env _ x.1 x.2 k ih

theorem foldl_loadEntry_invalid (env : Env) (m : List (String × Host)) (st : State)
    (k : String) (hsep : containsRune k env.PathSeparator = true)
    (hno : st.proxy.hostMap k = none) :
    (m.foldl (fun s kv => loadEntry env s kv.1 kv.2) st).proxy.hostMap k = none := by
  induction m using List.reverseRecOn with
  | nil => exact hno
  | append_singleton l x ih =>
    rw [foldl_loadEntry_snoc]
    by_cases hk : k = x.1
    · subst hk
      exact loadEntry_invalid env _ x.1 x.2 hsep ih
    · rw [loadEntry_hostMap_of_ne env _ x.1 x.2 k hk]
      exact ih

theorem foldl_loadEntry_valid (env : Env) (m : List (String × Host)) (st : State)
    (k : String) (hsep : containsRune k env.PathSeparator = false)
    (hk : k ∈ m.map Prod.fst) :
    ∃ ph host, (k, host) ∈ m ∧
      (m.foldl (fun s kv => loadEntry env s kv.1 kv.2) st).proxy.hostMap k = some ph ∧
      (ph.TargetName = host.Target ∨ ph.TargetName = host.Target ++ "\x00") := by
  induction m using List.reverseRecOn with
  | nil => simp at hk
  | append_singleton l x ih =>
    rw [foldl_loadEntry_snoc]
    by_cases hkx : k = x.1
    · subst hkx
      obtain ⟨ph, hph, ht⟩ := loadEntry_valid env
        (l.foldl (fun s kv => loadEntry env s kv.1 kv.2) st) x.1 x.2 hsep
      exact ⟨ph, x.2, List.mem_append_right _ (List.mem_singleton_self _), hph, ht⟩
    · have hkl : k ∈ l.map Prod.fst := by
        simp only [List.map_append, List.map_cons, List.map_nil, List.mem_append,
          List.mem_singleton] at hk
        rcases hk with hk | hk
        · exact hk
        · exact absurd hk hkx
      obtain ⟨ph, host, hmem, hph, ht⟩ := ih hkl
      refine ⟨ph, host, List.mem_append_left _ hmem, ?_, ht⟩
      rw [loadEntry_hostMap_of_ne env _ x.1 x.2 k hkx]
      exact hph

theorem loadProxies_proxy (env : Env) (m : List (String × Host)) (st : State) :
    (loadProxies env m st).2.proxy =
      (m.foldl (fun s kv => loadEntry env s kv.1 kv.2) { st with proxyCounter := 0 }).proxy := by
  cases m with
  | nil => rfl
  | cons x xs => exact (loadProxies_of_ne_nil env (x :: xs) st (by simp)).2.1

/-- C4: for every state of the route table, `loadProxies` called with an empty
mapping returns a non-nil error and leaves the state, the route table
included, exactly as it was. -/
theorem loadProxies_empty_mapping (env : Env) (st : State) :
    (loadProxies env [] st).1 = some "empty mapping" ∧
    (loadProxies env [] st).1 ≠ none ∧
    (loadProxies env [] st).2 = st ∧
    (loadProxies env [] st).2.proxy.hostMap = st.proxy.hostMap :=
  ⟨rfl, by simp [loadProxies], rfl, rfl⟩

/-- C9: a key of the mapping that contains the path separator and has no entry
in the route table has no entry after `loadProxies` either; the reload still
returns no error, and every key of the mapping without a path separator has an
entry afterwards that carries the target of a mapping entry for that key (as
written, or followed by a NUL for an abstract socket). -/
theorem loadProxies_rejects_invalid_key (env : Env) (m : List (String × Host)) (st : State)
    (k : String) (hk : k ∈ m.map Prod.fst)
    (hsep : containsRune k env.PathSeparator = true)
    (hno : st.proxy.hostMap k = none) :
    (loadProxies env m st).1 = none ∧
    (loadProxies env m st).2.proxy.hostMap k = none ∧
    ∀ k2, k2 ∈ m.map Prod.fst → containsRune k2 env.PathSeparator = false →
      ∃ ph host, (k2, host) ∈ m ∧
        (loadProxies env m st).2.proxy.hostMap k2 = some ph ∧
        (ph.TargetName = host.Target ∨ ph.TargetName = host.Target ++ "\x00") := by
  have hne : m ≠ [] := by
    intro h0
    rw [h0] at hk
    simp at hk
  refine ⟨(loadProxies_of_ne_nil env m st hne).1, ?_, ?_⟩
  · rw [loadProxies_proxy]
    exact foldl_loadEntry_invalid env m _ k hsep hno
  · intro k2 hk2 hsep2
    rw [loadProxies_proxy]
    exact foldl_loadEntry_valid env m _ k2 hsep2 hk2

/-- Witness for C9: on Linux the key `bad/host` is not installed while
`good.com` of the same mapping is. -/
theorem loadProxies_rejects_invalid_key_witness :
    "bad/host" ∈ sampleInvalid.map Prod.fst ∧
    containsRune "bad/host" linuxEnv.PathSeparator = true ∧
    initState.proxy.hostMap "bad/host" = none ∧
    (loadProxies linuxEnv sampleInvalid initState).2.proxy.hostMap "bad/host" = none ∧
    ((loadProxies linuxEnv sampleInvalid initState).2.proxy.hostMap "good.com").isSome = true :=
  ⟨by decide, by decide, by decide,
   (loadProxies_rejects_invalid_key linuxEnv sampleInvalid initState "bad/host"
      (by decide) (by decide) (by decide)).2.1,
   by decide⟩

/-- C10: a reload touches only keys of the new mapping.  After `loadProxies`
every key that is not a key of the mapping holds what it held before; so does
every key whose mapping entries carry the target the table already holds; no
key that had an entry is left without one; and a reload of a single entry,
whatever its target, leaves every other key as it was. -/
theorem loadProxies_frame (env : Env) (m : List (String × Host)) (st : State) :
    (∀ k, k ∉ m.map Prod.fst →
      (loadProxies env m st).2.proxy.hostMap k = st.proxy.hostMap k) ∧
    (∀ k, (∀ host, (k, host) ∈ m → st.proxy.Exists k host.Target = true) →
      (loadProxies env m st).2.proxy.hostMap k = st.proxy.hostMap k) ∧
    (∀ k, (st.proxy.hostMap k).isSome = true →
      ((loadProxies env m st).2.proxy.hostMap k).isSome = true) ∧
    (∀ k host k2, k2 ≠ k →
      (loadProxies env [(k, host)] st).2.proxy.hostMap k2 = st.proxy.hostMap k2) := by
  refine ⟨?_, ?_, ?_, ?_⟩
  · intro k hk
    rw [loadProxies_proxy]
    exact foldl_loadEntry_of_not_mem env m _ k hk
  · intro k hk
    rw [loadProxies_proxy]
    exact foldl_loadEntry_frame env m _ k hk
  · intro k hk
    rw [loadProxies_proxy]
    exact foldl_loadEntry_isSome_mono env m _ k hk
  · intro k host k2 hne
    rw [loadProxies_proxy]
    exact foldl_loadEntry_of_not_mem env [(k, host)] _ k2 (by simpa using hne)

/-- Witness for C10: reloading a mapping that changes the target of
`example.com` leaves the handler of `old.test`, which the mapping does not
mention, in place. -/
theorem loadProxies_frame_witness :
    "old.test" ∉ sampleChanged.map Prod.fst ∧
    (loadProxies linuxEnv sampleChanged
        (loadProxies linuxEnv sampleFirst initState).2).2.proxy.hostMap "old.test" =
      (loadProxies linuxEnv sampleFirst initState).2.proxy.hostMap "old.test" ∧
    (loadProxies linuxEnv sampleChanged
        (loadProxies linuxEnv sampleFirst initState).2).2.proxy.hostMap "example.com" ≠
      (loadProxies linuxEnv sampleFirst initState).2.proxy.hostMap "example.com" :=
  ⟨by decide,
   (loadProxies_frame linuxEnv sampleChanged
      (loadProxies linuxEnv sampleFirst initState).2).1 "old.test" (by decide),
   by decide⟩

/-! ## Path-prefix keys -/

theorem sliceFrom_append (k rest : String) :
    sliceFrom (k ++ rest) k.data.length = some rest := by
  unfold sliceFrom
  simp [String.data_append]

/-- The director strips the prefix it was built with. -/
theorem director_path (u : URL) (K : String) (req : Request) (rest : String)
    (h : req.URL.Path = K ++ rest) :
    (director u K req).map (fun r => r.URL.Path) = some (singleJoiningSlash u.Path rest) := by
  unfold director
  rw [h, sliceFrom_append]
  rfl

/-- The director of a single-host proxy leaves the Host of the request alone,
sets scheme and host of the outbound URL to those of the target and adds the
forwarded-protocol header. -/
theorem director_scheme_host (u : URL) (K : String) (req out : Request)
    (h : director u K req = some out) :
    out.URL.Scheme = u.Scheme ∧ out.URL.Host = u.Host ∧ out.Host = req.Host ∧
      out.Header "X-Forwarded-Proto" = some ["https"] := by
  unfold director at h
  split at h
  · cases h
  · simp only [Option.some.injEq] at h
    subst h
    simp

/-- The iteration for a path-prefix key without path separator whose target
parses as an http or https URL stores a single-host proxy with that prefix. -/
theorem loadEntry_path_key (env : Env) (st : State) (K : String) (host : Host) (u : URL)
    (hK : hasPrefix K "/" = true)
    (hsep : containsRune K env.PathSeparator = false)
    (hat : ¬ (host.Target.data.head? = some '@' ∧ env.GOOS = "linux"))
    (habs : env.IsAbs host.Target = false)
    (hparse : env.urlParse host.Target = some u)
    (hscheme : u.Scheme = "http" ∨ u.Scheme = "https")
    (hno : st.proxy.hostMap K = none) :
    (loadEntry env st K host).proxy.hostMap K =
      some ⟨K, host.Target, newSingleHostReverseProxy u K host.SetCookiePath, st.allocated⟩ := by
  have hex : st.proxy.Exists K host.Target = false := by
    simp [Proxy.Exists, hno]
  have hat2 : ¬ (host.Target ≠ "" ∧ host.Target.data.head? = some '@' ∧ env.GOOS = "linux") :=
    fun h => hat h.2
  unfold loadEntry
  simp only [hex, hsep, hat2, habs, hparse, hscheme, hK, Bool.false_eq_true, if_false, if_true]
  exact install_hostMap_self _ _ _ _

/-- C6 (amended): for every route key K that begins with `/` and contains no
path separator of the platform, mapped to a target that is neither an abstract
socket address nor an absolute path and parses as an http or https URL,
`loadProxies` on a table with no entry for K installs under K a forwarding
handler for that URL with prefix K, and the director of that handler rewrites
every inbound path K + rest to `singleJoiningSlash(target.Path, rest)`. -/
theorem loadProxies_installs_path_key (env : Env) (m : List (String × Host)) (st : State)
    (K : String) (host : Host) (u : URL)
    (hmem : (K, host) ∈ m) (hnodup : (m.map Prod.fst).Nodup)
    (hK : hasPrefix K "/" = true)
    (hsep : containsRune K env.PathSeparator = false)
    (hat : ¬ (host.Target.data.head? = some '@' ∧ env.GOOS = "linux"))
    (habs : env.IsAbs host.Target = false)
    (hparse : env.urlParse host.Target = some u)
    (hscheme : u.Scheme = "http" ∨ u.Scheme = "https")
    (hno : st.proxy.hostMap K = none) :
    ∃ ph d, (loadProxies env m st).2.proxy.hostMap K = some ph ∧
      ph.HostName = K ∧ ph.TargetName = host.Target ∧
      ph.Handler = newSingleHostReverseProxy u K host.SetCookiePath ∧
      ph.Handler.Director = some d ∧
      ∀ (req : Request) (rest : String), req.URL.Path = K ++ rest →
        (d req).map (fun r => r.URL.Path) = some (singleJoiningSlash u.Path rest) := by
  obtain ⟨l1, l2, hsplit⟩ := List.append_of_mem hmem
  subst hsplit
  have hnd : (l1.map Prod.fst ++ K :: l2.map Prod.fst).Nodup := by
    simpa using hnodup
  have hK1 : K ∉ l1.map Prod.fst := by
    intro hin
    have := (List.nodup_append.1 hnd).2.2
    exact this hin (List.mem_cons_self _ _)
  have hK2 : K ∉ l2.map Prod.fst := by
    have := (List.nodup_append.1 hnd).2.1
    exact (List.nodup_cons.1 this).1
  rw [loadProxies_proxy, List.foldl_append, List.foldl_cons]
  rw [foldl_loadEntry_of_not_mem env l2 _ K hK2]
  have h1 : (l1.foldl (fun s kv => loadEntry env s kv.1 kv.2)
      { st with proxyCounter := 0 }).proxy.hostMap K = none := by
    rw [foldl_loadEntry_of_not_mem env l1 _ K hK1]
    exact hno
  refine ⟨_, director u K, loadEntry_path_key env _ K host u hK hsep hat habs hparse hscheme h1,
    rfl, rfl, rfl, rfl, ?_⟩
  intro req rest hp
  exact director_path u K req rest hp

/-- Witness for C6: on Windows the key `/app` mapped to
`http://127.0.0.1:9000/base` is installed. -/
theorem loadProxies_installs_path_key_witness :
    (("/app", (⟨"http://127.0.0.1:9000/base", false⟩ : Host)) ∈ samplePath) ∧
    (samplePath.map Prod.fst).Nodup ∧
    hasPrefix "/app" "/" = true ∧
    containsRune "/app" windowsEnv.PathSeparator = false ∧
    windowsEnv.IsAbs "http://127.0.0.1:9000/base" = false ∧
    windowsEnv.urlParse "http://127.0.0.1:9000/base" =
      some ⟨"http", "127.0.0.1:9000", "/base", ""⟩ ∧
    ∃ ph d, (loadProxies windowsEnv samplePath initState).2.proxy.hostMap "/app" = some ph ∧
      ph.HostName = "/app" ∧ ph.TargetName = "http://127.0.0.1:9000/base" ∧
      ph.Handler = newSingleHostReverseProxy ⟨"http", "127.0.0.1:9000", "/base", ""⟩ "/app" false ∧
      ph.Handler.Director = some d ∧
      ∀ (req : Request) (rest : String), req.URL.Path = "/app" ++ rest →
        (d req).map (fun r => r.URL.Path) = some (singleJoiningSlash "/base" rest) :=
  ⟨by decide, by decide, by decide, by decide, by decide, by decide,
   loadProxies_installs_path_key windowsEnv samplePath initState "/app"
     ⟨"http://127.0.0.1:9000/base", false⟩ ⟨"http", "127.0.0.1:9000", "/base", ""⟩
     (by decide) (by decide) (by decide) (by decide) (by decide) (by decide) (by decide)
     (Or.inl rfl) (by decide)⟩

/-- Counterexample for C6: on Linux the key `/app` begins with `/`, its target
parses as an http URL and the table is empty, and yet `loadProxies` installs
nothing under `/app`: the key contains the path separator and is skipped. -/
theorem loadProxies_skips_path_key_on_linux :
    hasPrefix "/app" "/" = true ∧
    linuxEnv.urlParse "http://127.0.0.1:9000/base" =
      some ⟨"http", "127.0.0.1:9000", "/base", ""⟩ ∧
    initState.proxy.hostMap "/app" = none ∧
    (loadProxies linuxEnv samplePath initState).1 = none ∧
    (loadProxies linuxEnv samplePath initState).2.proxy.hostMap "/app" = none ∧
    (loadProxies linuxEnv samplePath initState).2.allocated = 1 := by
  refine ⟨by decide, by decide, by decide, by decide, by decide, by decide⟩

/-- Where the path separator is `/`, a path-prefix key is never installed. -/
theorem loadProxies_path_key_never_on_slash_platform (env : Env) (m : List (String × Host))
    (st : State) (K : String) (hsl : env.PathSeparator = '/')
    (hK : hasPrefix K "/" = true) (hno : st.proxy.hostMap K = none) :
    (loadProxies env m st).2.proxy.hostMap K = none := by
  have hsep : containsRune K env.PathSeparator = true := by
    obtain ⟨r, hr⟩ := (hasPrefix_slash K).1 hK
    simp [containsRune, hsl, hr]
  rw [loadProxies_proxy]
  exact foldl_loadEntry_invalid env m _ K hsep hno

/-! ## Reuse of unchanged handlers -/

/-- An entry is settled in a table when the table holds its target under its
key, or its key contains the path separator. -/
theorem loadEntry_settled (env : Env) (st : State) (hostname : String) (host : Host)
    (h : st.proxy.Exists hostname host.Target = true ∨
      containsRune hostname env.PathSeparator = true) :
    (loadEntry env st hostname host).proxy = st.proxy ∧
    (loadEntry env st hostname host).allocated = st.allocated := by
  by_cases hex : st.proxy.Exists hostname host.Target = true
  · rw [loadEntry_of_exists env st hostname host hex]
    exact ⟨rfl, rfl⟩
  · have hsep : containsRune hostname env.PathSeparator = true := by
      rcases h with h | h
      · exact absurd h hex
      · exact h
    unfold loadEntry
    simp [hex, hsep]

theorem foldl_loadEntry_settled (env : Env) (m : List (String × Host)) (st : State)
    (h : ∀ kv ∈ m, st.proxy.Exists kv.1 kv.2.Target = true ∨
      containsRune kv.1 env.PathSeparator = true) :
    (m.foldl (fun s kv => loadEntry env s kv.1 kv.2) st).proxy = st.proxy ∧
    (m.foldl (fun s kv => loadEntry env s kv.1 kv.2) st).allocated = st.allocated := by
  induction m using List.reverseRecOn with
  | nil => exact ⟨rfl, rfl⟩
  | append_singleton l x ih =>
    rw [foldl_loadEntry_snoc]
    have ih1 := ih (fun kv hkv => h kv (List.mem_append_left _ hkv))
    have hx := h x (List.mem_append_right _ (List.mem_singleton_self _))
    rw [← ih1.1] at hx
    have := loadEntry_settled env _ x.1 x.2 hx
    exact ⟨this.1.trans ih1.1, this.2.trans ih1.2⟩

/-- A key without a path separator whose target is not an abstract socket
address is stored, after its iteration, with the target as written. -/
theorem loadEntry_valid_of_not_abstract (env : Env) (st : State) (hostname : String)
    (host : Host) (hsep : containsRune hostname env.PathSeparator = false)
    (hat : ¬ (host.Target ≠ "" ∧ host.Target.data.head? = some '@' ∧ env.GOOS = "linux")) :
    ∃ ph, (loadEntry env st hostname host).proxy.hostMap hostname = some ph ∧
      ph.TargetName = host.Target := by
  by_cases hex : st.proxy.Exists hostname host.Target = true
  · rw [loadEntry_of_exists env st hostname host hex]
    unfold Proxy.Exists at hex
    cases hm : st.proxy.hostMap hostname with
    | none => simp [hm] at hex
    | some item =>
      simp only [hm, decide_eq_true_eq] at hex
      exact ⟨item, rfl, hex⟩
  · unfold loadEntry
    simp only [hex, hsep, hat, Bool.false_eq_true, if_false]
    split_ifs
    all_goals first
      | exact ⟨_, install_hostMap_self _ _ _ _, rfl⟩
      | (split <;> [skip; skip]
         all_goals first
           | exact ⟨_, install_hostMap_self _ _ _ _, rfl⟩
           | (split_ifs <;> exact ⟨_, install_hostMap_self _ _ _ _, rfl⟩))

/-- After its iteration an entry that is not an abstract socket address is
settled. -/
theorem loadEntry_settles (env : Env) (st : State) (hostname : String) (host : Host)
    (hat : ¬ (host.Target ≠ "" ∧ host.Target.data.head? = some '@' ∧ env.GOOS = "linux")) :
    (loadEntry env st hostname host).proxy.Exists hostname host.Target = true ∨
      containsRune hostname env.PathSeparator = true := by
  by_cases hsep : containsRune hostname env.PathSeparator = true
  · exact Or.inr hsep
  · left
    have hsep2 : containsRune hostname env.PathSeparator = false := by
      cases h : containsRune hostname env.PathSeparator
      · rfl
      · exact absurd h hsep
    obtain ⟨ph, hph, ht⟩ := loadEntry_valid_of_not_abstract env st hostname host hsep2 hat
    unfold Proxy.Exists
    rw [hph]
    simp [ht]

theorem exists_congr_hostMap (p q : Proxy) (k t : String) (h : p.hostMap k = q.hostMap k) :
    p.Exists k t = q.Exists k t := by
  unfold Proxy.Exists
  rw [h]

/-- After the loop over a mapping with distinct keys and no abstract socket
address, every entry of the mapping is settled. -/
theorem foldl_loadEntry_settles (env : Env) (m : List (String × Host)) (st : State)
    (hnodup : (m.map Prod.fst).Nodup)
    (hat : ∀ kv ∈ m,
      ¬ (kv.2.Target ≠ "" ∧ kv.2.Target.data.head? = some '@' ∧ env.GOOS = "linux")) :
    ∀ kv ∈ m,
      (m.foldl (fun s kv => loadEntry env s kv.1 kv.2) st).proxy.Exists kv.1 kv.2.Target = true ∨
        containsRune kv.1 env.PathSeparator = true := by
  induction m using List.reverseRecOn with
  | nil => intro kv hkv; simp at hkv
  | append_singleton l x ih =>
    intro kv hkv
    rw [foldl_loadEntry_snoc]
    have hnd : (l.map Prod.fst ++ [x.1]).Nodup := by simpa using hnodup
    have hndl : (l.map Prod.fst).Nodup := (List.nodup_append.1 hnd).1
    rcases List.mem_append.1 hkv with hl | hx
    · have hne : kv.1 ≠ x.1 := by
        intro heq
        have := (List.nodup_append.1 hnd).2.2
        exact this (List.mem_map_of_mem Prod.fst hl) (by simp [heq])
      have ih1 := ih hndl (fun kv hkv => hat kv (List.mem_append_left _ hkv)) kv hl
      rw [exists_congr_hostMap _ _ kv.1 kv.2.Target
        (loadEntry_hostMap_of_ne env _ x.1 x.2 kv.1 hne)]
      exact ih1
    · have hkx : kv = x := List.mem_singleton.1 hx
      subst hkx
      exact loadEntry_settles env _ kv.1 kv.2
        (hat kv (List.mem_append_right _ (List.mem_singleton_self _)))

/-- Reload reuses unchanged handlers when no target is an abstract socket
address: after `loadProxies m`, a second `loadProxies` over the same entries
in any order allocates no handler and leaves the route table as it is. -/
theorem loadProxies_reuses_unchanged (env : Env) (m m2 : List (String × Host)) (st : State)
    (hnodup : (m.map Prod.fst).Nodup) (hsub : ∀ kv ∈ m2, kv ∈ m)
    (hat : ∀ kv ∈ m,
      ¬ (kv.2.Target ≠ "" ∧ kv.2.Target.data.head? = some '@' ∧ env.GOOS = "linux")) :
    (loadProxies env m2 (loadProxies env m st).2).2.proxy = (loadProxies env m st).2.proxy ∧
    (loadProxies env m2 (loadProxies env m st).2).2.allocated =
      (loadProxies env m st).2.allocated := by
  cases m2 with
  | nil => exact ⟨rfl, rfl⟩
  | cons y ys =>
    have h2 := loadProxies_of_ne_nil env (y :: ys) (loadProxies env m st).2 (by simp)
    rw [h2.2.1, h2.2.2]
    apply foldl_loadEntry_settled
    intro kv hkv
    have hmem := hsub kv hkv
    have := foldl_loadEntry_settles env m { st with proxyCounter := 0 } hnodup hat kv hmem
    rw [← loadProxies_proxy] at this
    exact this

/-- C3 (the code at the failing input): on Linux, with the single entry
`a.com` mapped to the abstract socket `@sock`, the first `loadProxies` stores
the handler under the target followed by a NUL, so the second `loadProxies` of
the same mapping does not find the target unchanged, allocates a second
handler and replaces the stored one. -/
theorem loadProxies_abstract_socket_rebuilt :
    ((loadProxies linuxEnv sampleAbstract initState).2.proxy.hostMap "a.com").map
        (fun ph => (ph.TargetName, ph.ptr)) = some ("@sock\x00", 0) ∧
    (loadProxies linuxEnv sampleAbstract initState).2.proxy.Exists "a.com" "@sock" = false ∧
    (loadProxies linuxEnv sampleAbstract initState).2.allocated = 1 ∧
    (loadProxies linuxEnv sampleAbstract
        (loadProxies linuxEnv sampleAbstract initState).2).2.allocated = 2 ∧
    ((loadProxies linuxEnv sampleAbstract
        (loadProxies linuxEnv sampleAbstract initState).2).2.proxy.hostMap "a.com").map
        (fun ph => (ph.TargetName, ph.ptr)) = some ("@sock\x00", 1) ∧
    (loadProxies linuxEnv sampleAbstract
        (loadProxies linuxEnv sampleAbstract initState).2).2.proxy.hostMap "a.com" ≠
      (loadProxies linuxEnv sampleAbstract initState).2.proxy.hostMap "a.com" := by
  refine ⟨by decide, by decide, by decide, by decide, by decide, by decide⟩

/-! ## Cookie rewriting -/

/-- C5 (the code at the failing input): the value
`id=42; Path=/foo; HttpOnly; Secure` has four parts; the specification keeps
`HttpOnly` and `Secure`, the code reattaches the third part only and drops
`Secure`.  On the three-part example of the specification both agree. -/
theorem rewriteSetCookie_drops_fourth_part :
    split "id=42; Path=/foo; HttpOnly; Secure" ';' =
      ["id=42", " Path=/foo", " HttpOnly", " Secure"] ∧
    rewriteSetCookieSpec "id=42; Path=/foo; HttpOnly; Secure" =
      "id=42; Path=/; HttpOnly; Secure" ∧
    rewriteSetCookie "id=42; Path=/foo; HttpOnly; Secure" = "id=42; Path=/; HttpOnly" ∧
    ((RoundTrip true (Except.ok ⟨200, ["id=42; Path=/foo; HttpOnly; Secure"]⟩)).response.toOption
      = some ⟨200, ["id=42; Path=/; HttpOnly"]⟩) ∧
    rewriteSetCookie "id=42; Path=/foo; HttpOnly" = "id=42; Path=/; HttpOnly" ∧
    rewriteSetCookieSpec "id=42; Path=/foo; HttpOnly" = "id=42; Path=/; HttpOnly" := by
  refine ⟨by decide, by decide, by decide, by decide, by decide, by decide⟩

/-- With at most three parts the code rewrites a cookie as the specification
says. -/
theorem rewriteSetCookie_eq_spec_of_short (value : String)
    (h : (split value ';').length ≤ 3) :
    rewriteSetCookie value = rewriteSetCookieSpec value := by
  unfold rewriteSetCookie rewriteSetCookieSpec
  generalize split value ';' = parts at h
  match parts, h with
  | [], _ => rfl
  | [_], _ => rfl
  | [_, _], _ => rfl
  | [_, _, _], _ => rfl
  | _ :: _ :: _ :: _ :: _, h => simp at h

/-! ## Served hostnames -/

theorem hostnames_foldl (m : List (String × Host)) (out : List String) :
    m.foldl (fun out kv =>
      if kv.1 ≠ "any" ∨ hasPrefix kv.1 "/" then out ++ [kv.1] else out) out =
      out ++ (m.map Prod.fst).filter (fun k => k != "any") := by
  induction m generalizing out with
  | nil => simp
  | cons x xs ih =>
    rw [List.foldl_cons, ih]
    by_cases hx : x.1 = "any"
    · have hp : hasPrefix "any" "/" = false := by decide
      simp [hx, hp]
    · simp [hx]

/-- What `hostnames` returns: the default hostname when it is set, then every
key of the mapping other than `any`, path-prefix keys included. -/
theorem hostnames_eq (args : runArgs) (m : List (String × Host)) :
    hostnames args m =
      (if args.HostName ≠ "" then [args.HostName] else []) ++
        (m.map Prod.fst).filter (fun k => k != "any") := by
  unfold hostnames
  exact hostnames_foldl m _

/-- C8 (the code at the failing input): for the mapping with the keys `/app`,
`any` and `example.com` and no default hostname, `hostnames` leaves out `any`
but returns the path-prefix key `/app` next to `example.com`. -/
theorem hostnames_keeps_path_key :
    hostnames ⟨false, "", false⟩ sampleHostnames = ["/app", "example.com"] ∧
    "/app" ∈ hostnames ⟨false, "", false⟩ sampleHostnames ∧
    hasPrefix "/app" "/" = true ∧
    "any" ∉ hostnames ⟨false, "", false⟩ sampleHostnames := by
  refine ⟨by decide, by decide, by decide, by decide⟩

end SweetSSL
